import Mathlib

/-!
Verification development for the ClientScout lead-aggregation script
(src/main.py). The Python source is shallowly embedded: pure helpers
become Lean functions, and the stateful search loop of `main` becomes a
set of structurally recursive functions over explicit state (the job-wide
`seen` key set, modelled as a list of keys, and the `all_items`
accumulator). External collaborators (the place-search provider, the
query-generation service, wall-clock time) are modelled as explicit
inputs: each polling round of a search session is given by the cumulative
item list the provider returns together with the elapsed time observed at
the deadline check of that round. Numeric payload fields that the script
only passes through (rating) are modelled as integers.
-/

/-- Models the Python expression `x or ""` applied to an optional string
(`None` and `""` both map to `""`). -/
def pyStr0 (o : Option String) : String := o.getD ""

/-- Models Python f-string interpolation of an optional value: `None`
renders as the literal string "None". -/
def pyStr : Option String → String
  | none => "None"
  | some s => s

/-- Models Python truthiness of an optional string: `None` and the empty
string are falsy. -/
def pyTruthy : Option String → Bool
  | none => false
  | some s => s != ""

/-- Models Python `str.lower` (ASCII case folding, as used by the script
on ASCII state names and addresses). -/
def strLower (s : String) : String := String.mk (s.data.map Char.toLower)

/-- Models Python `str.replace(" ", "")`. -/
def pyRemoveSpaces (s : String) : String :=
  String.mk (s.data.filter (fun c => c != ' '))

/-- Models Python `sep.join(parts)`. -/
def pyJoin (sep : String) : List String → String
  | [] => ""
  | [x] => x
  | x :: y :: xs => x ++ sep ++ pyJoin sep (y :: xs)

/-- Models Python `str.strip()` with no argument: remove leading and
trailing whitespace. -/
def pyStrip (s : String) : String :=
  String.mk
    (((s.data.dropWhile Char.isWhitespace).reverse.dropWhile
        Char.isWhitespace).reverse)

/-- Accumulator-passing worker for pySplit: the second argument holds
the characters of the current word in reverse. -/
def splitWsAux : List Char → List Char → List String
  | [], cur => if cur.isEmpty then [] else [String.mk cur.reverse]
  | c :: rest, cur =>
      if Char.isWhitespace c then
        (if cur.isEmpty then [] else [String.mk cur.reverse]) ++ splitWsAux rest []
      else splitWsAux rest (c :: cur)

/-- Models Python `str.split()` with no argument: split on whitespace
runs, discarding empty pieces. -/
def pySplit (s : String) : List String := splitWsAux s.data []

/-- Helper for substring search: whether the first list is a prefix of
the second. -/
def charPrefix : List Char → List Char → Bool
  | [], _ => true
  | _ :: _, [] => false
  | a :: as, b :: bs => a == b && charPrefix as bs

/-- Helper for substring search over character lists. -/
def charSub (n : List Char) : List Char → Bool
  | [] => charPrefix n []
  | c :: t => charPrefix n (c :: t) || charSub n t

/-- Models the Python membership test `needle in haystack` on strings
(contiguous substring). -/
def containsSub (needle haystack : String) : Bool :=
  charSub needle.data haystack.data

/-- The STATE_VARIATIONS table of src/main.py lines 27-39, in source
order (a Python dict modelled as an association list). -/
def STATE_VARIATIONS : List (String × List String) :=
  [ ("tamil nadu", ["tamil nadu", "tamilnadu", "tn", "t.n"]),
    ("karnataka", ["karnataka", "ka", "k.a"]),
    ("kerala", ["kerala", "kl", "k.l"]),
    ("maharashtra", ["maharashtra", "mh", "m.h"]),
    ("telangana", ["telangana", "ts", "t.s", "tg"]),
    ("andhra pradesh", ["andhra pradesh", "ap", "a.p"]),
    ("west bengal", ["west bengal", "wb", "w.b"]),
    ("gujarat", ["gujarat", "gj", "g.j"]),
    ("rajasthan", ["rajasthan", "rj", "r.j"]),
    ("madhya pradesh", ["madhya pradesh", "mp", "m.p"]),
    ("uttar pradesh", ["uttar pradesh", "up", "u.p"]) ]

/-- get_state_variations of src/main.py lines 42-63. The Python `state`
argument may be None or a string; both falsy cases return []. -/
def get_state_variations (state : Option String) : List String :=
  if pyTruthy state = false then []
  else
    let state_lower := pyStrip (strLower (pyStr0 state))
    match STATE_VARIATIONS.find? (fun p => p.1 == state_lower) with
    | some p => p.2
    | none =>
        let words := pySplit state_lower
        let abbreviations := [state_lower]
        if words.length > 1 then
          abbreviations ++
            [String.mk (words.map (fun w => w.front)),
             pyJoin "." (words.map (fun w => String.singleton w.front)) ++ "."]
        else abbreviations

/-- build_region_string of src/main.py lines 69-76: appends city if
truthy, then state if truthy, then always the country, and joins with
a comma separator. There is no postcode parameter in the source. -/
def build_region_string (country : String) (state city : Option String) : String :=
  let parts : List String :=
    (if pyTruthy city then [pyStr0 city] else []) ++
    (if pyTruthy state then [pyStr0 state] else []) ++
    [country]
  pyJoin ", " parts

/-- The region anchor exactly as `main` computes it (src/main.py lines
176-180 and 207): the stripped input fields are passed to
build_region_string; the postcode read from the input is in scope in
`main` but is not passed to build_region_string. -/
def region_anchor (country state city _postcode : String) : String :=
  build_region_string country (some state) (some city)

/-- Comparator that follows the words of the spec (section 4.1
precedence: postcode is the strongest anchor and is combined with the
country when present; otherwise city with state appended; otherwise
state with country appended; otherwise country). This definition is
written from the spec, not from the source, and exists only to be
compared with the code definition region_anchor. -/
def region_anchor_spec (country state city postcode : String) : String :=
  if postcode ≠ "" then
    (if country ≠ "" then postcode ++ ", " ++ country else postcode)
  else if city ≠ "" then
    (if state ≠ "" then city ++ ", " ++ state else city)
  else if state ≠ "" then
    (if country ≠ "" then state ++ ", " ++ country else state)
  else country

/-- A raw place record as consumed by the script (the provider fields it
reads: title, phone, website, address, totalScore, reviewsCount,
categoryName, url). The numeric rating is modelled as an integer since
the script only passes it through. -/
structure Item where
  title : Option String
  address : Option String
  phone : Option String
  website : Option String
  totalScore : Option Int
  reviewsCount : Option Int
  categoryName : Option String
  url : Option String
deriving DecidableEq

/-- is_location_valid of src/main.py lines 83-115, with the early
returns rendered as a chain of conditionals. -/
def is_location_valid (item : Item) (state city postcode : Option String) : Bool :=
  let address := strLower (pyStr0 item.address)
  if address = "" then false
  else if pyTruthy postcode && !containsSub (strLower (pyStr0 postcode)) address then
    false
  else if pyTruthy state &&
      !((get_state_variations state).any fun v => containsSub v address) then
    false
  else if pyTruthy city &&
      !containsSub (pyStrip (strLower (pyStr0 city))) address &&
      !containsSub (pyRemoveSpaces (pyStrip (strLower (pyStr0 city))))
        (pyRemoveSpaces address) then
    false
  else true

/-- A JSON value, as produced by json.loads in the query generator. -/
inductive PyJson where
  | null
  | jbool (b : Bool)
  | jint (n : Int)
  | jstr (s : String)
  | jlist (xs : List PyJson)

/-- The fallback of the except branch of
generate_search_queries_with_llm (src/main.py line 163):
`[keyword] if keyword else [sector]`. -/
def llm_fallback (sector keyword : String) : List PyJson :=
  if keyword ≠ "" then [PyJson.jstr keyword] else [PyJson.jstr sector]

/-- generate_search_queries_with_llm of src/main.py lines 121-163. The
whole fallible prefix of the try block (HTTP call, response decoding,
text-block concatenation, code-fence stripping, json.loads) is
abstracted as its outcome: `none` when any of those steps raised, and
`some v` when json.loads returned the value v. A non-list value or an
empty list raises ValueError inside the try, which the same except
branch catches; otherwise the list is truncated to 6 entries. The
function is total: no failure propagates out. -/
def generate_search_queries_with_llm (parsed : Option PyJson)
    (sector keyword : String) : List PyJson :=
  match parsed with
  | some (PyJson.jlist xs) =>
      if xs.isEmpty then llm_fallback sector keyword else xs.take 6
  | some _ => llm_fallback sector keyword
  | none => llm_fallback sector keyword

/-- Classifier for the failure outcomes of the generation call that the
spec enumerates: the call raised (network failure, non-200 body without
text blocks, malformed JSON), or parsed to a non-array value, or parsed
to an empty array. -/
def is_llm_failure : Option PyJson → Bool
  | some (PyJson.jlist xs) => xs.isEmpty
  | some _ => true
  | none => true

/-- The deduplication key of src/main.py line 264:
`f"{item.get('title')}_{item.get('address')}"`. -/
def dedup_key (item : Item) : String :=
  pyStr item.title ++ "_" ++ pyStr item.address

/-- The global wall-clock budget in seconds (src/main.py line 274). -/
def GLOBAL_DEADLINE : Nat := 120

/-- The per-request result cap of src/main.py line 238:
`min(max_results * 2, 50)`. -/
def maxCrawledPlacesPerSearch (max_results : Nat) : Nat :=
  min (max_results * 2) 50

/-- Observable events of one job: session starts (with the result cap
sent in the request) and session aborts, identified by the provider run
id. -/
inductive Event where
  | start (runId : Nat) (cap : Nat)
  | abort (runId : Nat)
deriving DecidableEq

/-- One polling round of a search session: the cumulative item list the
provider dataset returns at that round, and the elapsed seconds since
job start observed at the deadline check of that round. -/
structure Poll where
  items : List Item
  elapsed : Nat
deriving DecidableEq

/-- One search session as driven by the outer loop: the query term, the
provider run id it is assigned, and its schedule of polling rounds. -/
structure Session where
  query : String
  runId : Nat
  polls : List Poll
deriving DecidableEq

/-- The inner for-loop over fetched items (src/main.py lines 257-268):
records failing is_location_valid are skipped; otherwise the dedup key
is computed and the record is appended (and its key recorded) only when
the key is not yet in the job-wide seen set. The seen set is modelled
as a list of keys; the accumulator additionally records, as ghost
provenance, the query term of the session that produced each record. -/
def processItems (st ci pc : Option String) (query : String) :
    List Item → List String → List (Item × String) →
    List String × List (Item × String)
  | [], seen, acc => (seen, acc)
  | item :: rest, seen, acc =>
      if is_location_valid item st ci pc then
        if dedup_key item ∈ seen then
          processItems st ci pc query rest seen acc
        else
          processItems st ci pc query rest (dedup_key item :: seen)
            (acc ++ [(item, query)])
      else processItems st ci pc query rest seen acc

/-- The inner `while True` polling loop (src/main.py lines 254-278).
Each round reads the cumulative dataset, folds processItems over it,
then exits with one session abort if the accumulator has reached
max_results, or one session abort if the elapsed time exceeds the
global deadline; otherwise it sleeps and polls again. The poll schedule
is finite; `none` models a schedule exhausted without either exit
condition firing (the loop still polling). -/
def innerLoop (st ci pc : Option String) (query : String) (runId : Nat)
    (max_results : Nat) :
    List Poll → List String → List (Item × String) →
    Option (List String × List (Item × String) × List Event)
  | [], _, _ => none
  | poll :: rest, seen, acc =>
      let r := processItems st ci pc query poll.items seen acc
      if r.2.length ≥ max_results then some (r.1, r.2, [Event.abort runId])
      else if poll.elapsed > GLOBAL_DEADLINE then
        some (r.1, r.2, [Event.abort runId])
      else innerLoop st ci pc query runId max_results rest r.1 r.2

/-- The outer loop over query terms (src/main.py lines 227-281): each
term starts a session (emitting a start event carrying the request
result cap), runs the polling loop, and then breaks out of the outer
loop exactly when the accumulator has reached max_results. -/
def searchLoop (st ci pc : Option String) (max_results : Nat) :
    List Session → List String → List (Item × String) →
    Option (List String × List (Item × String) × List Event)
  | [], seen, acc => some (seen, acc, [])
  | s :: rest, seen, acc =>
      match innerLoop st ci pc s.query s.runId max_results s.polls seen acc with
      | none => none
      | some (seen1, acc1, ev1) =>
          let evs := Event.start s.runId (maxCrawledPlacesPerSearch max_results) :: ev1
          if acc1.length ≥ max_results then some (seen1, acc1, evs)
          else
            match searchLoop st ci pc max_results rest seen1 acc1 with
            | none => none
            | some (seen2, acc2, ev2) => some (seen2, acc2, evs ++ ev2)

/-- The output lead schema of src/main.py lines 291-301. -/
structure LeadRecord where
  name : Option String
  phone : Option String
  website : Option String
  address : Option String
  rating : Option Int
  reviewCount : Option Int
  category : Option String
  googleMapsUrl : Option String
  searchQuery : String
deriving DecidableEq

/-- The per-item record construction of src/main.py lines 291-301. -/
def lead_of (stamp : String) (item : Item) : LeadRecord :=
  ⟨item.title, item.phone, item.website, item.address, item.totalScore,
   item.reviewsCount, item.categoryName, item.url, stamp⟩

/-- Models the Python expression `keyword or sector` on strings. -/
def pyOr (a b : String) : String := if a = "" then b else a

/-- The final-output for-loop of src/main.py lines 288-304: append the
mapped record, then break once the output has reached max_results. -/
def outputLoop (stamp : String) (max_results : Nat) :
    List LeadRecord → List Item → List LeadRecord
  | acc, [] => acc
  | acc, item :: rest =>
      let acc1 := acc ++ [lead_of stamp item]
      if acc1.length ≥ max_results then acc1
      else outputLoop stamp max_results acc1 rest

/-- The final output assembly of src/main.py lines 288-306: every record
is stamped with `keyword or sector` (line 300). -/
def final_output (keyword sector : String) (max_results : Nat)
    (all_items : List Item) : List LeadRecord :=
  outputLoop (pyOr keyword sector) max_results [] all_items

/-- The job-wide deduplication invariant: every accumulated record has
its key in the seen set, and accumulated keys are pairwise distinct. -/
def KeyInv (seen : List String) (acc : List (Item × String)) : Prop :=
  (∀ p ∈ acc, dedup_key p.1 ∈ seen) ∧
  (acc.map fun p => dedup_key p.1).Nodup

/-- The event trace the outer loop emits for a list of processed
sessions: one start (carrying the request cap) and one abort per
session, in order. -/
def sessionTrace (m : Nat) : List Session → List Event
  | [] => []
  | x :: xs =>
      Event.start x.runId (maxCrawledPlacesPerSearch m) ::
      Event.abort x.runId :: sessionTrace m xs


lemma processItems_spec (st ci pc : Option String) (q : String)
    (items : List Item) :
    ∀ (seen : List String) (acc : List (Item × String)),
      (∃ l, (processItems st ci pc q items seen acc).2 = acc ++ l) ∧
      (∀ p ∈ (processItems st ci pc q items seen acc).2,
        p ∈ acc ∨ is_location_valid p.1 st ci pc = true) ∧
      (KeyInv seen acc →
        KeyInv (processItems st ci pc q items seen acc).1
          (processItems st ci pc q items seen acc).2) := by
  induction items with
  | nil =>
      intro seen acc
      refine ⟨⟨[], by simp [processItems]⟩, ?_, ?_⟩
      · intro p hp; exact Or.inl (by simpa [processItems] using hp)
      · intro h; simpa [processItems] using h
  | cons item rest ih =>
      intro seen acc
      by_cases hv : is_location_valid item st ci pc = true
      · by_cases hk : dedup_key item ∈ seen
        · simpa [processItems, hv, hk] using ih seen acc
        · have h3 := ih (dedup_key item :: seen) (acc ++ [(item, q)])
          refine ⟨?_, ?_, ?_⟩
          · obtain ⟨l, hl⟩ := h3.1
            exact ⟨(item, q) :: l, by simp [processItems, hv, hk, hl]⟩
          · intro p hp
            have hp2 : p ∈ (processItems st ci pc q rest
                (dedup_key item :: seen) (acc ++ [(item, q)])).2 := by
              simpa [processItems, hv, hk] using hp
            rcases h3.2.1 p hp2 with h | h
            · rcases List.mem_append.mp h with h | h
              · exact Or.inl h
              · right
                have hpq : p = (item, q) := by simpa using h
                rw [hpq]; exact hv
            · exact Or.inr h
          · intro hinv
            have hinv2 : KeyInv (dedup_key item :: seen) (acc ++ [(item, q)]) := by
              constructor
              · intro p hp
                rcases List.mem_append.mp hp with h | h
                · exact List.mem_cons_of_mem _ (hinv.1 p h)
                · have hpq : p = (item, q) := by simpa using h
                  rw [hpq]; exact List.mem_cons_self _ _
              · have hnotin : dedup_key item ∉ acc.map fun p => dedup_key p.1 := by
                  intro hmem
                  rcases List.mem_map.mp hmem with ⟨p, hp, hkey⟩
                  exact hk (hkey ▸ hinv.1 p hp)
                simp only [List.map_append, List.map_cons, List.map_nil]
                rw [List.nodup_append]
                refine ⟨hinv.2, List.nodup_singleton _, ?_⟩
                intro k hkmem hksing
                have hks : k = dedup_key item := by simpa using hksing
                exact hnotin (hks ▸ hkmem)
            simpa [processItems, hv, hk] using h3.2.2 hinv2
      · simpa [processItems, hv] using ih seen acc

lemma innerLoop_spec (st ci pc : Option String) (q : String)
    (rid max_results : Nat) (polls : List Poll) :
    ∀ seen acc s a ev,
      innerLoop st ci pc q rid max_results polls seen acc = some (s, a, ev) →
      ev = [Event.abort rid] ∧ (∃ l, a = acc ++ l) ∧
      (∀ p ∈ a, p ∈ acc ∨ is_location_valid p.1 st ci pc = true) ∧
      (KeyInv seen acc → KeyInv s a) := by
  induction polls with
  | nil => intro seen acc s a ev h; simp [innerLoop] at h
  | cons poll rest ih =>
      intro seen acc s a ev h
      have hpi := processItems_spec st ci pc q poll.items seen acc
      simp only [innerLoop] at h
      split at h
      · simp only [Option.some.injEq, Prod.mk.injEq] at h
        obtain ⟨h1, h2, h3⟩ := h
        subst h1; subst h2; subst h3
        exact ⟨rfl, hpi.1, hpi.2.1, hpi.2.2⟩
      · split at h
        · simp only [Option.some.injEq, Prod.mk.injEq] at h
          obtain ⟨h1, h2, h3⟩ := h
          subst h1; subst h2; subst h3
          exact ⟨rfl, hpi.1, hpi.2.1, hpi.2.2⟩
        · have hrec := ih _ _ _ _ _ h
          refine ⟨hrec.1, ?_, ?_, ?_⟩
          · obtain ⟨l1, hl1⟩ := hpi.1
            obtain ⟨l2, hl2⟩ := hrec.2.1
            exact ⟨l1 ++ l2, by rw [hl2, hl1, List.append_assoc]⟩
          · intro p hp
            rcases hrec.2.2.1 p hp with hmem | hval
            · exact hpi.2.1 p hmem
            · exact Or.inr hval
          · intro hinv
            exact hrec.2.2.2 (hpi.2.2 hinv)

lemma searchLoop_spec (st ci pc : Option String) (max_results : Nat)
    (sessions : List Session) :
    ∀ seen acc s a ev,
      searchLoop st ci pc max_results sessions seen acc = some (s, a, ev) →
      (∃ ss tt, sessions = ss ++ tt ∧ ev = sessionTrace max_results ss) ∧
      (∃ l, a = acc ++ l) ∧
      (∀ p ∈ a, p ∈ acc ∨ is_location_valid p.1 st ci pc = true) ∧
      (KeyInv seen acc → KeyInv s a) := by
  induction sessions with
  | nil =>
      intro seen acc s a ev h
      simp only [searchLoop, Option.some.injEq, Prod.mk.injEq] at h
      obtain ⟨h1, h2, h3⟩ := h
      subst h1; subst h2; subst h3
      refine ⟨⟨[], [], by simp, by simp [sessionTrace]⟩, ⟨[], by simp⟩, ?_, ?_⟩
      · intro p hp; exact Or.inl hp
      · exact id
  | cons x rest ih =>
      intro seen acc s a ev h
      simp only [searchLoop] at h
      cases hin : innerLoop st ci pc x.query x.runId max_results x.polls seen acc with
      | none => rw [hin] at h; simp at h
      | some r =>
          obtain ⟨s1, a1, ev1⟩ := r
          rw [hin] at h
          have hil := innerLoop_spec st ci pc x.query x.runId max_results
            x.polls seen acc s1 a1 ev1 hin
          simp only at h
          split at h
          · simp only [Option.some.injEq, Prod.mk.injEq] at h
            obtain ⟨h1, h2, h3⟩ := h
            subst h1; subst h2; subst h3
            refine ⟨⟨[x], rest, by simp, by simp [sessionTrace, hil.1]⟩,
              hil.2.1, hil.2.2.1, hil.2.2.2⟩
          · cases hrec : searchLoop st ci pc max_results rest s1 a1 with
            | none => rw [hrec] at h; simp at h
            | some r2 =>
                obtain ⟨s2, a2, ev2⟩ := r2
                rw [hrec] at h
                simp only [Option.some.injEq, Prod.mk.injEq] at h
                obtain ⟨h1, h2, h3⟩ := h
                subst h1; subst h2; subst h3
                have hihr := ih s1 a1 s2 a2 ev2 hrec
                refine ⟨?_, ?_, ?_, ?_⟩
                · obtain ⟨ss, tt, hst, hev⟩ := hihr.1
                  exact ⟨x :: ss, tt, by simp [hst],
                    by simp [sessionTrace, hil.1, hev]⟩
                · obtain ⟨l1, hl1⟩ := hil.2.1
                  obtain ⟨l2, hl2⟩ := hihr.2.1
                  exact ⟨l1 ++ l2, by rw [hl2, hl1, List.append_assoc]⟩
                · intro p hp
                  rcases hihr.2.2.1 p hp with hmem | hval
                  · exact hil.2.2.1 p hmem
                  · exact Or.inr hval
                · intro hinv
                  exact hihr.2.2.2 (hil.2.2.2 hinv)

lemma outputLoop_take (stamp : String) (m : Nat) (items : List Item) :
    ∀ acc, ∃ n,
      outputLoop stamp m acc items = acc ++ (items.take n).map (lead_of stamp) := by
  induction items with
  | nil => intro acc; exact ⟨0, by simp [outputLoop]⟩
  | cons i rest ih =>
      intro acc
      simp only [outputLoop]
      split
      · exact ⟨1, by simp⟩
      · obtain ⟨n, hn⟩ := ih (acc ++ [lead_of stamp i])
        exact ⟨n + 1, by simp [hn, List.take_succ_cons]⟩

/-- A concrete record with title "A" and address "B", used in concrete
job runs. -/
def itemA : Item := ⟨some "A", some "B", none, none, none, none, none, none⟩

/-- A concrete record used in the stamping counterexample. -/
def itemX : Item := ⟨some "X Corp", some "12 Road", none, none, none, none, none, none⟩

/-- A concrete record whose address carries the dotted acronym of an
unknown state name. -/
def itemNSW : Item :=
  ⟨some "Shop", some "12 George St, N.S.W. 2000", none, none, none, none, none, none⟩

/-- A concrete record with no address at all. -/
def ghostItem : Item := ⟨some "Ghost Biz", none, none, none, none, none, none, none⟩

/-- First record of the dedup-key collision pair. -/
def collide_a : Item := ⟨some "a_b", some "c", none, none, none, none, none, none⟩

/-- Second record of the dedup-key collision pair. -/
def collide_b : Item := ⟨some "a", some "b_c", none, none, none, none, none, none⟩

/-- Two sessions whose every poll happens after the global deadline. -/
def lateSessions : List Session :=
  [⟨"q1", 1, [⟨[], 121⟩]⟩, ⟨"q2", 2, [⟨[], 122⟩]⟩]

/-- C2, counterexample: on the input postcode="560001", city="Bangalore",
state="Karnataka", country="India" the code builds the anchor
"Bangalore, Karnataka, India"; the postcode never enters the anchor and
the spec-precedence anchor "560001, India" differs from it. -/
theorem region_anchor_postcode_cex :
    region_anchor "India" "Karnataka" "Bangalore" "560001" =
      "Bangalore, Karnataka, India" ∧
    region_anchor_spec "India" "Karnataka" "Bangalore" "560001" =
      "560001, India" ∧
    region_anchor "India" "Karnataka" "Bangalore" "560001" ≠
      region_anchor_spec "India" "Karnataka" "Bangalore" "560001" ∧
    containsSub "560001" (region_anchor "India" "Karnataka" "Bangalore" "560001") =
      false :=
  ⟨rfl, rfl, by decide, by decide⟩

/-- C2, amended: the region anchor ignores the postcode entirely; it is
city (if nonempty) then state (if nonempty) then always the country,
joined by ", " - the country is appended even when city or state are
present, and the postcode never participates. -/
theorem region_anchor_precedence_amended (country state city postcode : String) :
    region_anchor country state city postcode = region_anchor country state city "" ∧
    (city ≠ "" → state ≠ "" → region_anchor country state city postcode =
      city ++ ", " ++ state ++ ", " ++ country) ∧
    (city ≠ "" → state = "" → region_anchor country state city postcode =
      city ++ ", " ++ country) ∧
    (city = "" → state ≠ "" → region_anchor country state city postcode =
      state ++ ", " ++ country) ∧
    (city = "" → state = "" → region_anchor country state city postcode = country) := by
  refine ⟨rfl, ?_, ?_, ?_, ?_⟩
  · intro hc hs
    have hc2 : (city != "") = true := by simp [bne_iff_ne]; exact hc
    have hs2 : (state != "") = true := by simp [bne_iff_ne]; exact hs
    simp [region_anchor, build_region_string, pyTruthy, pyStr0, hc2, hs2,
      pyJoin, String.append_assoc]
  · intro hc hs
    have hc2 : (city != "") = true := by simp [bne_iff_ne]; exact hc
    have hs2 : (state != "") = false := by simp [bne_iff_ne]; exact hs
    simp [region_anchor, build_region_string, pyTruthy, pyStr0, hc2, hs2,
      pyJoin, String.append_assoc]
  · intro hc hs
    have hc2 : (city != "") = false := by simp [bne_iff_ne]; exact hc
    have hs2 : (state != "") = true := by simp [bne_iff_ne]; exact hs
    simp [region_anchor, build_region_string, pyTruthy, pyStr0, hc2, hs2,
      pyJoin, String.append_assoc]
  · intro hc hs
    have hc2 : (city != "") = false := by simp [bne_iff_ne]; exact hc
    have hs2 : (state != "") = false := by simp [bne_iff_ne]; exact hs
    simp [region_anchor, build_region_string, pyTruthy, pyStr0, hc2, hs2,
      pyJoin, String.append_assoc]

theorem region_anchor_precedence_amended_witness :
    region_anchor "India" "" "Mumbai" "400001" = "Mumbai, India" :=
  (region_anchor_precedence_amended "India" "" "Mumbai" "400001").2.2.1
    (by decide) rfl

/-- C3: for every failure outcome of the generation call (the call
raised, the parsed JSON is not an array, or the array is empty), the
generator returns exactly the single-element fallback - the keyword if
nonempty, else the sector - and never an empty list; the function is
total, so no failure propagates. -/
theorem llm_fallback_queries (parsed : Option PyJson) (sector keyword : String)
    (h : is_llm_failure parsed = true) :
    generate_search_queries_with_llm parsed sector keyword =
      (if keyword ≠ "" then [PyJson.jstr keyword] else [PyJson.jstr sector]) ∧
    generate_search_queries_with_llm parsed sector keyword ≠ [] := by
  have hmain : generate_search_queries_with_llm parsed sector keyword =
      llm_fallback sector keyword := by
    cases parsed with
    | none => rfl
    | some v =>
        cases v with
        | jlist xs =>
            have hxs : xs.isEmpty = true := by simpa [is_llm_failure] using h
            simp [generate_search_queries_with_llm, hxs]
        | null => rfl
        | jbool b => rfl
        | jint n => rfl
        | jstr s2 => rfl
  constructor
  · exact hmain
  · rw [hmain]; unfold llm_fallback; split <;> simp

theorem llm_fallback_queries_witness :
    generate_search_queries_with_llm none "Healthcare" "" =
      [PyJson.jstr "Healthcare"] ∧
    generate_search_queries_with_llm none "Healthcare" "" ≠ [] := by
  have h := llm_fallback_queries none "Healthcare" "" rfl
  exact ⟨h.1.trans rfl, h.2⟩

/-- C4: with a state criterion supplied (and no city or postcode), the
geo validator accepts a record exactly when its lowercased address is
nonempty and some variation produced by get_state_variations for that
state occurs as a substring of the lowercased address. -/
theorem geo_state_variation_acceptance (st : String) (item : Item) (h : st ≠ "") :
    is_location_valid item (some st) none none =
      (decide (strLower (pyStr0 item.address) ≠ "") &&
       (get_state_variations (some st)).any
         fun v => containsSub v (strLower (pyStr0 item.address))) := by
  have hst : (st != "") = true := by simp [bne_iff_ne]; exact h
  by_cases ha : strLower (pyStr0 item.address) = ""
  · simp [is_location_valid, ha]
  · by_cases hany : ((get_state_variations (some st)).any
        fun v => containsSub v (strLower (pyStr0 item.address))) = true
    · simp [is_location_valid, pyTruthy, ha, hst, hany]
    · have hany2 : ((get_state_variations (some st)).any
          fun v => containsSub v (strLower (pyStr0 item.address))) = false := by
        simpa using hany
      simp [is_location_valid, pyTruthy, ha, hst, hany2]

theorem geo_state_variation_acceptance_witness :
    is_location_valid itemNSW (some "New South Wales") none none = true :=
  (geo_state_variation_acceptance "New South Wales" itemNSW (by decide)).trans
    (by decide)

/-- C9: a record whose address is missing or empty is rejected by
is_location_valid for every combination of criteria, including when no
criterion is supplied at all, and consequently such a record is never
present in the accumulator of any job run started from the empty
state. -/
theorem empty_address_rejected (item : Item)
    (h : item.address = none ∨ item.address = some "") :
    (∀ st ci pc, is_location_valid item st ci pc = false) ∧
    (∀ (st ci pc : Option String) (m : Nat) (sessions : List Session)
        (s : List String) (a : List (Item × String)) (ev : List Event),
        searchLoop st ci pc m sessions [] [] = some (s, a, ev) →
        ∀ q, (item, q) ∉ a) := by
  have haddr : strLower (pyStr0 item.address) = "" := by
    rcases h with h | h <;> rw [h] <;> rfl
  have hfalse : ∀ st ci pc, is_location_valid item st ci pc = false := by
    intro st ci pc
    simp [is_location_valid, haddr]
  refine ⟨hfalse, ?_⟩
  intro st ci pc m sessions s a ev hrun q hmem
  have hval := (searchLoop_spec st ci pc m sessions [] [] s a ev hrun).2.2.1
    (item, q) hmem
  rcases hval with hin | hv
  · simp at hin
  · rw [hfalse st ci pc] at hv
    simp at hv

theorem empty_address_rejected_witness :
    is_location_valid ghostItem none none none = false :=
  (empty_address_rejected ghostItem (Or.inl rfl)).1 none none none

/-- C10: the deduplication key concatenates name, an underscore, and
address, so the distinct pairs (name="a_b", address="c") and (name="a",
address="b_c") collide on the key "a_b_c", and when both records appear
in a job the later one is silently dropped: processing them against an
empty state accumulates only the first. -/
theorem dedup_key_collision :
    (collide_a.title, collide_a.address) ≠ (collide_b.title, collide_b.address) ∧
    dedup_key collide_a = dedup_key collide_b ∧
    processItems none none none "q" [collide_a, collide_b] [] [] =
      (["a_b_c"], [(collide_a, "q")]) :=
  ⟨by decide, rfl, by decide⟩

/-- Compact constructor for records that only carry a title and an
address. -/
def mkSimple (t a : String) : Item :=
  ⟨some t, some a, none, none, none, none, none, none⟩

/-- Seven distinct valid records, used to reach an accumulator of length
seven in one session. -/
def capItems : List Item :=
  [mkSimple "B1" "A1", mkSimple "B2" "A2", mkSimple "B3" "A3",
   mkSimple "B4" "A4", mkSimple "B5" "A5", mkSimple "B6" "A6",
   mkSimple "B7" "A7"]

/-- A session that yields seven records and then passes the deadline. -/
def capSession1 : Session := ⟨"q1", 1, [⟨capItems, 121⟩]⟩

/-- Two sessions: the first accumulates seven records, the second starts
with seven already accumulated. -/
def capSessions : List Session := [capSession1, ⟨"q2", 2, [⟨[], 122⟩]⟩]

/-- Two sessions under distinct query terms where only the second one
produces a record. -/
def stampSessions : List Session :=
  [⟨"alpha", 1, [⟨[], 121⟩]⟩, ⟨"beta", 2, [⟨[itemX], 122⟩]⟩]

lemma sessionTrace_count_abort (m rid : Nat) :
    ∀ ss : List Session,
      (sessionTrace m ss).count (Event.abort rid) =
        (ss.map Session.runId).count rid := by
  intro ss
  induction ss with
  | nil => simp [sessionTrace]
  | cons y ys ih => simp [sessionTrace, List.count_cons, ih, beq_iff_eq]

lemma sessionTrace_count_start (m rid : Nat) :
    ∀ ss : List Session,
      (sessionTrace m ss).count (Event.start rid (maxCrawledPlacesPerSearch m)) =
        (ss.map Session.runId).count rid := by
  intro ss
  induction ss with
  | nil => simp [sessionTrace]
  | cons y ys ih => simp [sessionTrace, List.count_cons, ih, beq_iff_eq]

lemma sessionTrace_start_mem (m : Nat) :
    ∀ (ss : List Session) (rid cap : Nat),
      Event.start rid cap ∈ sessionTrace m ss →
      cap = maxCrawledPlacesPerSearch m := by
  intro ss
  induction ss with
  | nil => intro rid cap h; simp [sessionTrace] at h
  | cons y ys ih =>
      intro rid cap h
      simp only [sessionTrace, List.mem_cons] at h
      rcases h with h | h | h
      · injection h with h1 h2
      · exact absurd h (by simp)
      · exact ih rid cap h

/-- C6: every completed run of the outer loop emits, for the prefix of
sessions it processed, exactly the alternating trace start, abort,
start, abort, ...: one abort per started session, emitted before the
next session starts, regardless of which condition ended the polling
loop; when run ids are distinct, every started session has exactly one
start and exactly one abort event in the whole trace. -/
theorem one_abort_per_session (st ci pc : Option String) (m : Nat)
    (sessions : List Session) (seen : List String) (acc : List (Item × String))
    (s : List String) (a : List (Item × String)) (ev : List Event)
    (h : searchLoop st ci pc m sessions seen acc = some (s, a, ev)) :
    ∃ ss tt, sessions = ss ++ tt ∧ ev = sessionTrace m ss ∧
      ((sessions.map Session.runId).Nodup → ∀ x ∈ ss,
        ev.count (Event.start x.runId (maxCrawledPlacesPerSearch m)) = 1 ∧
        ev.count (Event.abort x.runId) = 1) := by
  obtain ⟨ss, tt, hst, hev⟩ :=
    (searchLoop_spec st ci pc m sessions seen acc s a ev h).1
  refine ⟨ss, tt, hst, hev, ?_⟩
  intro hnodup x hx
  have hssn : (ss.map Session.runId).Nodup := by
    rw [hst, List.map_append] at hnodup
    exact (List.nodup_append.mp hnodup).1
  have hmem : x.runId ∈ ss.map Session.runId := List.mem_map_of_mem _ hx
  have hcount : (ss.map Session.runId).count x.runId = 1 :=
    List.count_eq_one_of_mem hssn hmem
  constructor
  · rw [hev, sessionTrace_count_start m x.runId ss]; exact hcount
  · rw [hev, sessionTrace_count_abort m x.runId ss]; exact hcount

theorem one_abort_per_session_witness :
    ∃ ss tt, ([⟨"q2", 2, [⟨[], 122⟩]⟩] : List Session) = ss ++ tt ∧
      ([Event.start 2 10, Event.abort 2] : List Event) = sessionTrace 5 ss ∧
      ((([⟨"q2", 2, [⟨[], 122⟩]⟩] : List Session).map Session.runId).Nodup →
        ∀ x ∈ ss,
          ([Event.start 2 10, Event.abort 2] : List Event).count
            (Event.start x.runId (maxCrawledPlacesPerSearch 5)) = 1 ∧
          ([Event.start 2 10, Event.abort 2] : List Event).count
            (Event.abort x.runId) = 1) :=
  one_abort_per_session none none none 5 [⟨"q2", 2, [⟨[], 122⟩]⟩] [] [] [] []
    [Event.start 2 10, Event.abort 2] rfl

/-- C7, counterexample: with maxResults=10 the first session accumulates
seven records, so the remaining need when the second request is built is
three; yet the second request carries the cap 20 = min(10*2, 50), which
is not a multiple of 3 - the cap is derived from the total target, not
from the remaining need. -/
theorem crawl_cap_remaining_cex :
    ((searchLoop none none none 10 capSessions [] []).map fun r => r.2.2) =
      some [Event.start 1 20, Event.abort 1, Event.start 2 20, Event.abort 2] ∧
    ((searchLoop none none none 10 [capSession1] [] []).map fun r => r.2.1.length) =
      some 7 ∧
    ¬ (10 - 7) ∣ 20 :=
  ⟨rfl, rfl, by decide⟩

/-- C7, amended: the result cap sent with every session start is the
constant min(maxResults * 2, 50), computed from the total target count
and independent of how many leads have been accumulated so far. -/
theorem crawl_cap_constant (st ci pc : Option String) (m : Nat)
    (sessions : List Session) (seen : List String) (acc : List (Item × String))
    (s : List String) (a : List (Item × String)) (ev : List Event)
    (h : searchLoop st ci pc m sessions seen acc = some (s, a, ev)) :
    ∀ rid cap, Event.start rid cap ∈ ev → cap = maxCrawledPlacesPerSearch m := by
  obtain ⟨ss, tt, hst, hev⟩ :=
    (searchLoop_spec st ci pc m sessions seen acc s a ev h).1
  intro rid cap hmem
  rw [hev] at hmem
  exact sessionTrace_start_mem m ss rid cap hmem

theorem crawl_cap_constant_witness :
    (10 : Nat) = maxCrawledPlacesPerSearch 5 :=
  crawl_cap_constant none none none 5 lateSessions [] [] [] []
    [Event.start 1 10, Event.abort 1, Event.start 2 10, Event.abort 2] rfl 1 10
    (by decide)

/-- C5, counterexample: in a run where every poll of every session
happens after the global deadline and the target is never reached, the
orchestrator still starts the second session (its start event is in the
trace) - the expired budget does not stop the outer loop from issuing
further query terms. -/
theorem deadline_outer_loop_cex :
    (lateSessions.all fun x =>
      x.polls.all fun p => decide (GLOBAL_DEADLINE < p.elapsed)) = true ∧
    searchLoop none none none 5 lateSessions [] [] =
      some ([], [],
        [Event.start 1 10, Event.abort 1, Event.start 2 10, Event.abort 2]) ∧
    Event.start 2 10 ∈
      [Event.start 1 10, Event.abort 1, Event.start 2 10, Event.abort 2] ∧
    ([] : List (Item × String)).length < 5 :=
  ⟨by decide, rfl, by decide, by decide⟩

lemma searchLoop_all_late (st ci pc : Option String) (m : Nat)
    (sessions : List Session) :
    ∀ seen acc,
      (∀ x ∈ sessions, x.polls ≠ []) →
      (∀ x ∈ sessions, ∀ p ∈ x.polls, GLOBAL_DEADLINE < p.elapsed) →
      ∃ s a ev, searchLoop st ci pc m sessions seen acc = some (s, a, ev) ∧
        (a.length < m → ∀ x ∈ sessions,
          Event.start x.runId (maxCrawledPlacesPerSearch m) ∈ ev ∧
          Event.abort x.runId ∈ ev) := by
  induction sessions with
  | nil => intro seen acc _ _; exact ⟨seen, acc, [], rfl, by simp⟩
  | cons x rest ih =>
      intro seen acc h1 h2
      obtain ⟨p, ps, hp⟩ :=
        List.exists_cons_of_ne_nil (h1 x (List.mem_cons_self _ _))
      have hinner : innerLoop st ci pc x.query x.runId m x.polls seen acc =
          some ((processItems st ci pc x.query p.items seen acc).1,
                (processItems st ci pc x.query p.items seen acc).2,
                [Event.abort x.runId]) := by
        have hel : GLOBAL_DEADLINE < p.elapsed :=
          h2 x (List.mem_cons_self _ _) p (by rw [hp]; exact List.mem_cons_self _ _)
        rw [hp]
        by_cases hc : (processItems st ci pc x.query p.items seen acc).2.length ≥ m
        · simp [innerLoop, hc]
        · simp [innerLoop, hc, hel]
      by_cases hreach : (processItems st ci pc x.query p.items seen acc).2.length ≥ m
      · refine ⟨(processItems st ci pc x.query p.items seen acc).1,
          (processItems st ci pc x.query p.items seen acc).2,
          [Event.start x.runId (maxCrawledPlacesPerSearch m), Event.abort x.runId],
          ?_, ?_⟩
        · simp [searchLoop, hinner, hreach]
        · intro hlt; exfalso; omega
      · obtain ⟨s2, a2, ev2, hrec, hprop⟩ :=
          ih (processItems st ci pc x.query p.items seen acc).1
             (processItems st ci pc x.query p.items seen acc).2
             (fun y hy => h1 y (List.mem_cons_of_mem _ hy))
             (fun y hy => h2 y (List.mem_cons_of_mem _ hy))
        refine ⟨s2, a2,
          Event.start x.runId (maxCrawledPlacesPerSearch m) ::
            Event.abort x.runId :: ev2, ?_, ?_⟩
        · simp [searchLoop, hinner, hreach, hrec]
        · intro hlt y hy
          rcases List.mem_cons.mp hy with hyx | hyr
          · subst hyx
            exact ⟨List.mem_cons_self _ _,
              List.mem_cons_of_mem _ (List.mem_cons_self _ _)⟩
          · have hy2 := hprop hlt y hyr
            exact ⟨List.mem_cons_of_mem _ (List.mem_cons_of_mem _ hy2.1),
              List.mem_cons_of_mem _ (List.mem_cons_of_mem _ hy2.2)⟩

/-- C5, amended: once every poll happens after the global deadline, each
polling loop exits at its first poll and aborts its session, but the
outer loop is not stopped by the deadline: unless the target count is
reached, every remaining query term still gets its session started (and
aborted); only the target-count condition stops the outer loop early. -/
theorem deadline_inner_exit_outer_continues (st ci pc : Option String)
    (m : Nat) (seen : List String) (acc : List (Item × String))
    (sessions : List Session)
    (h1 : ∀ x ∈ sessions, x.polls ≠ [])
    (h2 : ∀ x ∈ sessions, ∀ p ∈ x.polls, GLOBAL_DEADLINE < p.elapsed) :
    ∃ s a ev, searchLoop st ci pc m sessions seen acc = some (s, a, ev) ∧
      (a.length < m → ∀ x ∈ sessions,
        Event.start x.runId (maxCrawledPlacesPerSearch m) ∈ ev ∧
        Event.abort x.runId ∈ ev) :=
  searchLoop_all_late st ci pc m sessions seen acc h1 h2

theorem deadline_inner_exit_outer_continues_witness :
    ∃ s a ev, searchLoop none none none 5 lateSessions [] [] = some (s, a, ev) ∧
      (a.length < 5 → ∀ x ∈ lateSessions,
        Event.start x.runId (maxCrawledPlacesPerSearch 5) ∈ ev ∧
        Event.abort x.runId ∈ ev) :=
  deadline_inner_exit_outer_continues none none none 5 [] [] lateSessions
    (by decide) (by decide)

/-- C1: for every job run started from the empty seen set and empty
accumulator, the assembled output contains no two lead records with the
same (name, address) pair: the job-wide key set makes accumulated keys
pairwise distinct across all query terms, and equal (name, address)
pairs would force equal keys. -/
theorem job_output_identity_key_unique (st ci pc : Option String) (m : Nat)
    (keyword sector : String) (sessions : List Session)
    (s : List String) (a : List (Item × String)) (ev : List Event)
    (h : searchLoop st ci pc m sessions [] [] = some (s, a, ev)) :
    (final_output keyword sector m (a.map Prod.fst)).Pairwise
      (fun r1 r2 => ¬ (r1.name = r2.name ∧ r1.address = r2.address)) := by
  have hspec := searchLoop_spec st ci pc m sessions [] [] s a ev h
  have hinit : KeyInv [] [] :=
    ⟨fun p hp => absurd hp (List.not_mem_nil p), by simp⟩
  have hinv : KeyInv s a := hspec.2.2.2 hinit
  have hkeys : ((a.map Prod.fst).map dedup_key).Nodup := by
    simpa [List.map_map, Function.comp] using hinv.2
  obtain ⟨n, hn⟩ := outputLoop_take (pyOr keyword sector) m (a.map Prod.fst) []
  have hfo : final_output keyword sector m (a.map Prod.fst) =
      ((a.map Prod.fst).take n).map (lead_of (pyOr keyword sector)) := by
    simpa [final_output] using hn
  rw [hfo]
  have htakekeys : (((a.map Prod.fst).take n).map dedup_key).Nodup :=
    List.Nodup.sublist ((List.take_sublist n (a.map Prod.fst)).map dedup_key) hkeys
  have hpw : ((a.map Prod.fst).take n).Pairwise
      (fun i j => dedup_key i ≠ dedup_key j) := by
    have h3 : (((a.map Prod.fst).take n).map dedup_key).Pairwise (· ≠ ·) :=
      htakekeys
    rwa [List.pairwise_map] at h3
  rw [List.pairwise_map]
  refine hpw.imp ?_
  intro i j hne hcon
  apply hne
  have hti : i.title = j.title := by simpa [lead_of] using hcon.1
  have hai : i.address = j.address := by simpa [lead_of] using hcon.2
  simp [dedup_key, hti, hai]

theorem job_output_identity_key_unique_witness :
    (final_output "k" "s" 5 ([(itemA, "q")].map Prod.fst)).Pairwise
      (fun r1 r2 => ¬ (r1.name = r2.name ∧ r1.address = r2.address)) :=
  job_output_identity_key_unique none none none 5 "k" "s"
    [⟨"q", 1, [⟨[itemA], 121⟩]⟩] ["A_B"] [(itemA, "q")]
    [Event.start 1 10, Event.abort 1] rfl

/-- C8, counterexample: a record collected under the query term "beta"
(the ghost provenance of the accumulator records the producing term) is
stamped in the final output with searchQuery "S" - the keyword-or-sector
constant - not with "beta". -/
theorem search_query_stamp_cex :
    searchLoop none none none 10 stampSessions [] [] =
      some (["X Corp_12 Road"], [(itemX, "beta")],
        [Event.start 1 20, Event.abort 1, Event.start 2 20, Event.abort 2]) ∧
    final_output "" "S" 10 [itemX] =
      [⟨some "X Corp", none, none, some "12 Road", none, none, none, none, "S"⟩] ∧
    ("S" : String) ≠ "beta" :=
  ⟨rfl, rfl, by decide⟩

/-- C8, amended: every record of the final output carries the same
searchQuery stamp, the keyword if nonempty else the sector, regardless
of which query term produced it. -/
theorem search_query_stamp_constant (keyword sector : String) (m : Nat)
    (items : List Item) (r : LeadRecord)
    (h : r ∈ final_output keyword sector m items) :
    r.searchQuery = pyOr keyword sector := by
  obtain ⟨n, hn⟩ := outputLoop_take (pyOr keyword sector) m items []
  have hfo : final_output keyword sector m items =
      (items.take n).map (lead_of (pyOr keyword sector)) := by
    simpa [final_output] using hn
  rw [hfo] at h
  obtain ⟨i, hi, hr⟩ := List.mem_map.mp h
  rw [← hr]
  rfl

theorem search_query_stamp_constant_witness :
    (lead_of (pyOr "" "S") itemX).searchQuery = pyOr "" "S" :=
  search_query_stamp_constant "" "S" 10 [itemX] (lead_of (pyOr "" "S") itemX)
    (by decide)
